import Mathlib

/-!
Shallow embedding of the scheduling/scoring/streak core of the
`activity-tracker` backend (files `routers/scores.py`, `routers/analytics.py`,
`services/summary_service.py`).

Calendar dates are modelled as integers counting days since 1970-01-01
(so `d2 - d1` is the day difference, mirroring `(date2 - date1).days`).
1970-01-01 was a Thursday, so Python's `date.weekday()` (Monday = 0)
corresponds to `(d + 3) % 7`.

`date.today()` is impure in the source; it is passed here as an explicit
`today : Int` argument, as the spec's "reference today".
-/

namespace ActivityTracker

/-- WEEKDAY_MAP from scores.py: maps Python `weekday()` to day abbreviations. -/
def WEEKDAY_MAP : List String := ["mon", "tue", "wed", "thu", "fri", "sat", "sun"]

/-- Python `check_date.weekday()` for an epoch-day number (Monday = 0). -/
def pyWeekday (d : Int) : Nat := ((d + 3) % 7).toNat

/-- The weekday abbreviation `WEEKDAY_MAP[check_date.weekday()]`. -/
def dayName (d : Int) : String := WEEKDAY_MAP.getD (pyWeekday d) ""

/-- is_scheduled_for_day from `routers/scores.py` (lines 14-43).

Checks biweekly cadence first (anchor absent: never scheduled; before the
anchor: not scheduled; odd week since anchor: not scheduled), then the
weekly day-set (`None` means every day; otherwise the date's weekday
abbreviation must appear in the comma-separated set). -/
def is_scheduled_for_day (days_of_week : Option String) (check_date : Int)
    (schedule_frequency : String) (biweekly_start_date : Option Int) : Bool :=
  let biweeklyOk : Bool :=
    if schedule_frequency = "biweekly" then
      match biweekly_start_date with
      | none => false
      | some anchor =>
        let days_diff := check_date - anchor
        if days_diff < 0 then false
        else if (days_diff / 7) % 2 ≠ 0 then false
        else true
    else true
  if biweeklyOk then
    match days_of_week with
    | none => true
    | some s => (s.splitOn ",").contains (dayName check_date)
  else false

namespace SummaryService

/-- is_scheduled_for_day from `services/summary_service.py` (lines 418-443),
the second copy of the scheduling evaluator. Same logic as the scores-router
copy: biweekly cadence check first, then the weekly day-set check. -/
def is_scheduled_for_day (days_of_week : Option String) (check_date : Int)
    (schedule_frequency : String) (biweekly_start_date : Option Int) : Bool :=
  let biweeklyOk : Bool :=
    if schedule_frequency = "biweekly" then
      match biweekly_start_date with
      | none => false
      | some anchor =>
        let days_diff := check_date - anchor
        if days_diff < 0 then false
        else if (days_diff / 7) % 2 ≠ 0 then false
        else true
    else true
  if biweeklyOk then
    match days_of_week with
    | none => true
    | some s => (s.splitOn ",").contains (dayName check_date)
  else false

end SummaryService

/-- A row of the `activities` table (the columns used by the scoring core). -/
structure Activity where
  id : Nat
  user_id : Nat
  points : Int
  is_active : Bool
  days_of_week : Option String
  schedule_frequency : Option String
  biweekly_start_date : Option Int
deriving DecidableEq, Repr

/-- A row of the `activity_logs` table (one completion event). -/
structure ActivityLog where
  activity_id : Nat
  completed_at : Int
  user_id : Nat
deriving DecidableEq, Repr

/-- A row of the `special_days` table. -/
structure SpecialDay where
  user_id : Nat
  day : Int
deriving DecidableEq, Repr

/-- The data-store snapshot a scoring call reads. -/
structure DB where
  activities : List Activity
  logs : List ActivityLog
  special_days : List SpecialDay
deriving Repr

/-- The ScoreResponse record built by calculate_score (percentage as an
exact rational standing for the Python float). -/
structure ScoreResponse where
  period : String
  start_date : Int
  end_date : Int
  total_points : Int
  max_possible_points : Int
  completed_count : Nat
  total_activities : Nat
  percentage : ℚ
deriving DecidableEq, Repr

/-- The all-zero ScoreResponse returned on the early-exit paths. -/
def zeroScore (period : String) (start_date end_date : Int) : ScoreResponse :=
  ⟨period, start_date, end_date, 0, 0, 0, 0, 0⟩

/-- Python `round(x, 1)`: round to one decimal place, ties to even. -/
def round1 (q : ℚ) : ℚ :=
  let scaled : ℚ := q * 10
  let n : ℤ := ⌊scaled⌋
  let frac : ℚ := scaled - n
  let r : ℤ :=
    if frac < 1/2 then n
    else if 1/2 < frac then n + 1
    else if n % 2 = 0 then n else n + 1
  (r : ℚ) / 10

/-- Normalization `activity["schedule_frequency"] if activity["schedule_frequency"] else "weekly"`
(Python truthiness: both NULL and the empty string fall back to "weekly"). -/
def normFrequency (f : Option String) : String :=
  match f with
  | none => "weekly"
  | some s => if s = "" then "weekly" else s

/-- The per-activity due test as performed inside the scoring loops of
calculate_score (scores.py lines 117-126). -/
def activityDue (a : Activity) (d : Int) : Bool :=
  is_scheduled_for_day a.days_of_week d (normFrequency a.schedule_frequency) a.biweekly_start_date

/-- The list of dates `actual_start, actual_start+1, ..., actual_end` walked by
the `while current <= actual_end` loop (empty when start exceeds end). -/
def dateRange (a b : Int) : List Int :=
  if a ≤ b then (List.range ((b - a).toNat + 1)).map (fun (i : Nat) => a + (i : Int)) else []

/-- The scheduling loop of calculate_score (scores.py lines 109-131): walks the
given dates, skips special days, and accumulates (max_possible_points,
total_scheduled_activities) over the activities due on each remaining date. -/
def scheduledTotals (activities : List Activity) (specials : List Int)
    (days : List Int) : Int × Nat :=
  days.foldl (fun acc d =>
    if specials.contains d then acc
    else activities.foldl (fun acc2 a =>
      if activityDue a d then
        ((if 0 < a.points then acc2.1 + a.points else acc2.1), acc2.2 + 1)
      else acc2) acc) (0, 0)

/-- `SELECT MIN(completed_at) FROM activity_logs WHERE user_id = ?` (NULL on
an empty table). -/
def firstLogDate (db : DB) (user_id : Nat) : Option Int :=
  ((db.logs.filter (fun l => l.user_id == user_id)).map (fun l => l.completed_at)).foldr
    (fun a m => match m with | none => some a | some b => some (min a b)) none

/-- The adjusted window start: `max(start_date, first_log_date)` when the user
has logged before, else `start_date` (scores.py lines 89-94). -/
def effectiveStart (db : DB) (user_id : Nat) (start_date : Int) : Int :=
  match firstLogDate db user_id with
  | none => start_date
  | some f => max start_date f

/-- The adjusted window end: `min(end_date, today)` (scores.py line 90). -/
def effectiveEnd (end_date today : Int) : Int := min end_date today

/-- The per-completion join of calculate_score (scores.py lines 134-140):
logs of the user inside the original `[start_date, end_date]` range, inner
joined with `activities` on `activity_id = id` to fetch the point value. -/
def joinedPoints (db : DB) (user_id : Nat) (start_date end_date : Int) : List Int :=
  (db.logs.filter (fun l =>
      l.user_id == user_id && start_date ≤ l.completed_at && l.completed_at ≤ end_date)).filterMap
    (fun l => (db.activities.find? (fun a => a.id == l.activity_id)).map (fun a => a.points))

/-- calculate_score from `routers/scores.py` (lines 46-171), as a pure function
of the data-store snapshot, the requested range, and the reference today. -/
def calculate_score (db : DB) (start_date end_date : Int) (period : String)
    (user_id : Nat) (today : Int) : ScoreResponse :=
  let activities := db.activities.filter (fun a => a.is_active && a.user_id == user_id)
  if activities.isEmpty then zeroScore period start_date end_date
  else
    let special_days := (db.special_days.filter (fun s =>
        s.user_id == user_id && start_date ≤ s.day && s.day ≤ end_date)).map (fun s => s.day)
    let actual_start := effectiveStart db user_id start_date
    let actual_end := effectiveEnd end_date today
    if actual_end < actual_start then zeroScore period start_date end_date
    else
      let totals := scheduledTotals activities special_days (dateRange actual_start actual_end)
      let joined := joinedPoints db user_id start_date end_date
      let total_points := (joined.filter (fun p => 0 < p)).sum
      let completed_count := joined.length
      let percentage : ℚ :=
        if 0 < totals.1 then (total_points : ℚ) / (totals.1 : ℚ) * 100 else 0
      ⟨period, start_date, end_date, total_points, totals.1, completed_count, totals.2,
        round1 percentage⟩

/-- Python `sorted(set(...), reverse=True)`: descending insertion keeping one
copy of each value. -/
def insertDesc (a : Int) : List Int → List Int
  | [] => [a]
  | b :: rest => if a > b then a :: b :: rest else if a = b then b :: rest else b :: insertDesc a rest

/-- Descending de-duplicating sort (the `sorted(set(...), reverse=True)` of
analytics.py line 23). -/
def sortDescDedup (l : List Int) : List Int := l.foldr insertDesc []

/-- Python `sorted(..., reverse=True)` without de-duplication (the
`sorted([...], reverse=True)` of summary_service.py line 364). -/
def insertDescKeep (a : Int) : List Int → List Int
  | [] => [a]
  | b :: rest => if a ≥ b then a :: b :: rest else b :: insertDescKeep a rest

/-- Descending sort keeping duplicates. -/
def sortDesc (l : List Int) : List Int := l.foldr insertDescKeep []

/-- The consecutive-day walk shared by the current-streak loops: counts
elements of the list matching `expected, expected-1, expected-2, ...` until
the first mismatch (analytics.py lines 49-55, summary_service.py lines 377-383). -/
def countConsecutive : List Int → Int → Nat
  | [], _ => 0
  | d :: rest, expected =>
    if d = expected then 1 + countConsecutive rest (d - 1) else 0

/-- The loop of `_calculate_longest_streak` (analytics.py lines 75-84):
walks adjacent pairs of the descending date list tracking the current run
and the best run seen. -/
def calcLongestAux : List Int → Nat → Nat → Nat
  | x :: y :: rest, cur, best =>
    if x - y = 1 then calcLongestAux (y :: rest) (cur + 1) (max best (cur + 1))
    else calcLongestAux (y :: rest) 1 best
  | _, _, best => best

/-- `_calculate_longest_streak` from analytics.py (lines 67-85). -/
def calcLongest (dates : List Int) : Nat :=
  if dates.isEmpty then 0 else calcLongestAux dates 1 1

/-- The result record of calculate_streaks. -/
structure StreakResult where
  current_streak : Nat
  longest_streak : Nat
  last_completed : Option Int
deriving DecidableEq, Repr

/-- The date extraction of analytics.py line 23: dates of the logs belonging
to the requested activity (`log[0]` is the date, `log[1]` the activity id). -/
def datesOf (logs : List (Int × Nat)) (activity_id : Nat) : List Int :=
  (logs.filter (fun l => l.2 == activity_id)).map (fun l => l.1)

/-- calculate_streaks from `routers/analytics.py` (lines 14-64): de-duplicated
descending dates; current streak only when the most recent date is exactly
today or yesterday; longest streak via `_calculate_longest_streak`. -/
def calculate_streaks (logs : List (Int × Nat)) (activity_id : Nat)
    (today : Int) : StreakResult :=
  if logs.isEmpty then ⟨0, 0, none⟩
  else
    match sortDescDedup (datesOf logs activity_id) with
    | [] => ⟨0, 0, none⟩
    | d0 :: rest =>
      if d0 = today ∨ d0 = today - 1 then
        let expected := if d0 = today then today else today - 1
        let current := countConsecutive (d0 :: rest) expected
        ⟨current, max current (calcLongest (d0 :: rest)), some d0⟩
      else
        ⟨0, calcLongest (d0 :: rest), some d0⟩

/-- calculate_current_streak from `services/summary_service.py`
(lines 358-385): descending sort WITHOUT de-duplication, then the same
today-or-yesterday gate and consecutive-day walk. -/
def calculate_current_streak (dates : List Int) (today : Int) : Nat :=
  if dates.isEmpty then 0
  else
    match sortDesc dates with
    | [] => 0
    | d0 :: rest =>
      if d0 ≠ today ∧ d0 ≠ today - 1 then 0
      else countConsecutive (d0 :: rest) (if d0 = today - 1 then today - 1 else today)

/-- Membership-based backward chain length: how many of
`a, a-1, a-2, ...` are members of `l`, with explicit fuel. -/
def chainDownF (l : List Int) : Int → Nat → Nat
  | _, 0 => 0
  | a, Nat.succ n => if a ∈ l then 1 + chainDownF l (a - 1) n else 0

/-- Membership-based backward chain length with adequate fuel: the number of
consecutive calendar days `a, a-1, a-2, ...` present in `l` (the spec's
"walk backward ... counting consecutive calendar days until a gap"). -/
def chainDown (l : List Int) (a : Int) : Nat := chainDownF l a (l.length + 1)

/-- Maximum of `f` over the members of a list (0 on the empty list). -/
def maxOver (l : List Int) (f : Int → Nat) : Nat :=
  l.foldr (fun a m => max (f a) m) 0

/-- The max-possible-points contribution of one date: the summed point values
of the due activities with positive points (spec §4.2). -/
def dayMax (acts : List Activity) (d : Int) : Int :=
  ((acts.filter (fun a => activityDue a d && decide (0 < a.points))).map (fun a => a.points)).sum

/-- The total-scheduled contribution of one date: the number of due
activities (spec §4.2). -/
def dayCount (acts : List Activity) (d : Int) : Nat :=
  (acts.filter (fun a => activityDue a d)).length

end ActivityTracker

namespace ActivityTracker

/-! Lemmas about the per-day scheduling fold. -/

lemma innerFold_char (acts : List Activity) (d : Int) (f : Int) (n : Nat) :
    acts.foldl (fun acc2 a =>
      if activityDue a d then
        ((if 0 < a.points then acc2.1 + a.points else acc2.1), acc2.2 + 1)
      else acc2) (f, n) = (f + dayMax acts d, n + dayCount acts d) := by
  induction acts generalizing f n with
  | nil => simp [dayMax, dayCount]
  | cons a t ih =>
    rw [List.foldl_cons]
    by_cases hd : activityDue a d
    · rw [if_pos hd]
      by_cases hp : 0 < a.points
      · rw [if_pos hp, ih]
        have hp2 : (activityDue a d && decide (0 < a.points)) = true := by simp [hd, hp]
        have e1 : dayMax (a :: t) d = a.points + dayMax t d := by
          simp [dayMax, List.filter_cons, hp2]
        have e2 : dayCount (a :: t) d = dayCount t d + 1 := by
          simp [dayCount, List.filter_cons, hd]
        rw [e1, e2]
        simp only [Prod.mk.injEq]
        exact ⟨by ring, by omega⟩
      · rw [if_neg hp, ih]
        have hp2 : (activityDue a d && decide (0 < a.points)) = false := by simp [hp]
        have e1 : dayMax (a :: t) d = dayMax t d := by
          simp [dayMax, List.filter_cons, hp2]
        have e2 : dayCount (a :: t) d = dayCount t d + 1 := by
          simp [dayCount, List.filter_cons, hd]
        rw [e1, e2]
        simp only [Prod.mk.injEq]
        exact ⟨trivial, by omega⟩
    · rw [if_neg hd, ih]
      have hd2 : (activityDue a d && decide (0 < a.points)) = false := by simp [hd]
      have e1 : dayMax (a :: t) d = dayMax t d := by
        simp [dayMax, List.filter_cons, hd2]
      have e2 : dayCount (a :: t) d = dayCount t d := by
        simp [dayCount, List.filter_cons, hd]
      rw [e1, e2]

lemma scheduledTotals_char (acts : List Activity) (S : List Int) (days : List Int) :
    scheduledTotals acts S days =
      (((days.filter (fun d => !S.contains d)).map (dayMax acts)).sum,
       ((days.filter (fun d => !S.contains d)).map (dayCount acts)).sum) := by
  suffices h : ∀ (init : Int × Nat),
      days.foldl (fun acc d =>
        if S.contains d then acc
        else acts.foldl (fun acc2 a =>
          if activityDue a d then
            ((if 0 < a.points then acc2.1 + a.points else acc2.1), acc2.2 + 1)
          else acc2) acc) init =
      (init.1 + ((days.filter (fun d => !S.contains d)).map (dayMax acts)).sum,
       init.2 + ((days.filter (fun d => !S.contains d)).map (dayCount acts)).sum) by
    have h0 := h (0, 0)
    simpa [scheduledTotals] using h0
  induction days with
  | nil => intro init; simp
  | cons d t ih =>
    intro init
    rw [List.foldl_cons, List.filter_cons]
    by_cases hS : d ∈ S
    · rw [if_pos (by simpa using hS), if_neg (by simp [hS]), ih]
    · rw [if_neg (by simpa using hS), if_pos (by simp [hS])]
      obtain ⟨f, n⟩ := init
      rw [innerFold_char, ih]
      simp only [List.map_cons, List.sum_cons, Prod.mk.injEq]
      exact ⟨by ring, by omega⟩

/-- C10: the two copies of the scheduling evaluator — `is_scheduled_for_day`
in the scores router and `is_scheduled_for_day` in the summary service —
return the same boolean for every combination of day-set string, check date,
schedule frequency, and biweekly anchor date. -/
theorem scheduling_evaluators_agree :
    ∀ (days_of_week : Option String) (check_date : Int) (schedule_frequency : String)
      (biweekly_start_date : Option Int),
      is_scheduled_for_day days_of_week check_date schedule_frequency biweekly_start_date =
        SummaryService.is_scheduled_for_day days_of_week check_date schedule_frequency
          biweekly_start_date :=
  fun _ _ _ _ => rfl

/-- C2: for an item in biweekly mode with anchor A and no weekly day-set,
`is_scheduled_for_day` is true exactly when the date is at or after A and the
number of whole weeks since A is even — equivalently on day offsets 0..6 of
each 14-day period from A — and an anchorless biweekly item is never due. -/
theorem biweekly_schedule_spec :
    (∀ (A d : Int),
        is_scheduled_for_day none d "biweekly" (some A) =
          (decide (A ≤ d) && decide (((d - A) / 7) % 2 = 0))) ∧
    (∀ (A d : Int),
        is_scheduled_for_day none d "biweekly" (some A) =
          (decide (A ≤ d) && decide ((d - A) % 14 < 7))) ∧
    (∀ d : Int, is_scheduled_for_day none d "biweekly" none = false) := by
  refine ⟨fun A d => ?_, fun A d => ?_, fun d => rfl⟩
  · simp only [is_scheduled_for_day]
    norm_num
  · simp only [is_scheduled_for_day]
    norm_num
    by_cases hA : A ≤ d
    · have h1 : decide (A ≤ d) = true := by simp [hA]
      rw [h1]
      simp only [Bool.true_and]
      rw [decide_eq_decide]
      omega
    · have h1 : decide (A ≤ d) = false := by simp [hA]
      rw [h1]
      simp

/-- C3: in the scheduling loop of the Score Aggregator, every special day
contributes nothing to max_possible_points or total_scheduled_activities,
for every combination of activities and schedules: running the loop with the
special-day set S over a window equals running it with no special days over
the window with the special dates removed. -/
theorem special_days_fully_excluded :
    ∀ (acts : List Activity) (S : List Int) (days : List Int),
      scheduledTotals acts S days =
        scheduledTotals acts [] (days.filter (fun d => !S.contains d)) := by
  intro acts S days
  rw [scheduledTotals_char, scheduledTotals_char]
  have h : (days.filter (fun d => !S.contains d)).filter (fun d => !(List.contains [] d)) =
      days.filter (fun d => !S.contains d) := by
    apply List.filter_eq_self.mpr
    intro a _
    rfl
  rw [h]

/-- C7: whenever the effective evaluation window is inverted — its start
`max(start_date, first_log_date or start_date)` exceeds its end
`min(end_date, today)` — calculate_score returns the all-zero result. -/
theorem inverted_window_all_zero (db : DB) (start_date end_date : Int) (period : String)
    (user_id : Nat) (today : Int)
    (h : effectiveEnd end_date today < effectiveStart db user_id start_date) :
    calculate_score db start_date end_date period user_id today =
      zeroScore period start_date end_date := by
  simp only [calculate_score]
  split_ifs with h1
  · rfl
  · rfl

/-- Witness for C7: a user whose first log (day 10) is after the requested
end (day 5) gets the all-zero score. -/
theorem inverted_window_all_zero_witness :
    effectiveEnd 5 20 <
        effectiveStart ⟨[⟨1, 1, 10, true, none, none, none⟩], [⟨1, 10, 1⟩], []⟩ 1 0 ∧
      calculate_score ⟨[⟨1, 1, 10, true, none, none, none⟩], [⟨1, 10, 1⟩], []⟩ 0 5 "weekly" 1 20 =
        zeroScore "weekly" 0 5 :=
  ⟨by decide,
   inverted_window_all_zero ⟨[⟨1, 1, 10, true, none, none, none⟩], [⟨1, 10, 1⟩], []⟩ 0 5
     "weekly" 1 20 (by decide)⟩

lemma sum_filter_pos_nonneg (l : List Int) : 0 ≤ (l.filter (fun p => decide (0 < p))).sum := by
  induction l with
  | nil => simp
  | cons a t ih =>
    by_cases h : 0 < a
    · simp only [List.filter_cons, h, decide_True, if_pos, List.sum_cons]
      omega
    · simp only [List.filter_cons, h, decide_False]
      simpa using ih

lemma round1_nonneg (q : ℚ) (h : 0 ≤ q) : 0 ≤ round1 q := by
  simp only [round1]
  have hf : (0 : ℤ) ≤ ⌊q * 10⌋ := by positivity
  split_ifs <;> positivity

lemma round1_int (z : ℤ) : round1 (z : ℚ) = (z : ℚ) := by
  simp only [round1]
  have h1 : ((z : ℚ) * 10) = ((10 * z : ℤ) : ℚ) := by push_cast; ring
  rw [h1, Int.floor_intCast, sub_self]
  rw [if_pos (by norm_num)]
  push_cast
  ring

lemma round1_zero : round1 0 = 0 := by
  have h := round1_int 0
  norm_num at h
  exact h

lemma calculate_score_percentage_eq (db : DB) (start_date end_date : Int) (period : String)
    (user_id : Nat) (today : Int)
    (h1 : (db.activities.filter (fun a => a.is_active && a.user_id == user_id)).isEmpty = false)
    (h2 : ¬ effectiveEnd end_date today < effectiveStart db user_id start_date) :
    (calculate_score db start_date end_date period user_id today).percentage =
      round1 (if 0 < (calculate_score db start_date end_date period user_id today).max_possible_points
        then ((calculate_score db start_date end_date period user_id today).total_points : ℚ) /
          ((calculate_score db start_date end_date period user_id today).max_possible_points : ℚ) * 100
        else 0) := by
  simp only [calculate_score]
  rw [if_neg (by simp [h1]), if_neg h2]

/-- C1 counterexample: completions on a special day still earn points though
the day adds nothing to max_possible_points, so with one 10-point daily item,
window day 4..5, day 5 special, and completions on both days, the percentage
is 200 — above 100 even though max_possible_points = 10 > 0. -/
theorem score_percentage_above_100_cex :
    0 < (calculate_score ⟨[⟨1, 1, 10, true, none, none, none⟩],
          [⟨1, 4, 1⟩, ⟨1, 5, 1⟩], [⟨1, 5⟩]⟩ 4 5 "daily" 1 10).max_possible_points ∧
    100 < (calculate_score ⟨[⟨1, 1, 10, true, none, none, none⟩],
          [⟨1, 4, 1⟩, ⟨1, 5, 1⟩], [⟨1, 5⟩]⟩ 4 5 "daily" 1 10).percentage := by
  have hm : (calculate_score ⟨[⟨1, 1, 10, true, none, none, none⟩],
      [⟨1, 4, 1⟩, ⟨1, 5, 1⟩], [⟨1, 5⟩]⟩ 4 5 "daily" 1 10).max_possible_points = 10 := by decide
  have ht : (calculate_score ⟨[⟨1, 1, 10, true, none, none, none⟩],
      [⟨1, 4, 1⟩, ⟨1, 5, 1⟩], [⟨1, 5⟩]⟩ 4 5 "daily" 1 10).total_points = 20 := by decide
  refine ⟨by rw [hm]; norm_num, ?_⟩
  rw [calculate_score_percentage_eq _ _ _ _ _ _ (by decide) (by decide), hm, ht]
  norm_num
  have h := round1_int 200
  norm_num at h
  rw [h]
  norm_num

/-- C1 (amended): the percentage returned by calculate_score is always
nonnegative, and is exactly 0 whenever max_possible_points = 0; the upper
bound 100 does not hold in general. -/
theorem score_percentage_nonneg (db : DB) (start_date end_date : Int) (period : String)
    (user_id : Nat) (today : Int) :
    0 ≤ (calculate_score db start_date end_date period user_id today).percentage ∧
      ((calculate_score db start_date end_date period user_id today).max_possible_points = 0 →
        (calculate_score db start_date end_date period user_id today).percentage = 0) := by
  simp only [calculate_score]
  split_ifs with h1 h2 hm
  · exact ⟨le_refl 0, fun _ => rfl⟩
  · exact ⟨le_refl 0, fun _ => rfl⟩
  · constructor
    · apply round1_nonneg
      have hb := le_of_lt hm
      refine mul_nonneg (div_nonneg ?_ ?_) (by norm_num)
      · exact_mod_cast sum_filter_pos_nonneg (joinedPoints db user_id start_date end_date)
      · exact_mod_cast hb
    · intro h0
      exact absurd h0 (ne_of_gt hm)
  · constructor
    · show (0 : ℚ) ≤ round1 0
      rw [round1_zero]
    · intro h0
      show round1 0 = 0
      exact round1_zero

/-- Witness for C1 (amended): a data store with no activities has
max_possible_points 0 and percentage exactly 0. -/
theorem score_percentage_nonneg_witness :
    (calculate_score ⟨[], [], []⟩ 0 5 "weekly" 1 20).max_possible_points = 0 ∧
      (calculate_score ⟨[], [], []⟩ 0 5 "weekly" 1 20).percentage = 0 :=
  ⟨by decide, (score_percentage_nonneg ⟨[], [], []⟩ 0 5 "weekly" 1 20).2 (by decide)⟩

lemma dayMax_append_nonpos (a : Activity) (h : a.points ≤ 0) (acts : List Activity) (d : Int) :
    dayMax (acts ++ [a]) d = dayMax acts d := by
  simp [dayMax, List.filter_append, List.filter_cons, show ¬ 0 < a.points from not_lt.mpr h]

/-- C4: a non-positive-point item never increases max_possible_points — adding
it to the activity list leaves the scheduling loop's points total unchanged
for every window and special-day set — while each of its completion events
inside the range still increments completed_count (the length of the joined
log list) by one without changing the positive-points sum. -/
theorem nonpositive_item_scoring (a : Activity) (h : a.points ≤ 0) :
    (∀ (acts : List Activity) (S : List Int) (days : List Int),
        (scheduledTotals (acts ++ [a]) S days).1 = (scheduledTotals acts S days).1) ∧
    (∀ (db : DB) (user_id : Nat) (start_date end_date : Int) (l : ActivityLog),
        l.user_id = user_id → start_date ≤ l.completed_at → l.completed_at ≤ end_date →
        db.activities.find? (fun x => x.id == l.activity_id) = some a →
        (joinedPoints { db with logs := l :: db.logs } user_id start_date end_date).length
            = (joinedPoints db user_id start_date end_date).length + 1 ∧
          ((joinedPoints { db with logs := l :: db.logs } user_id start_date end_date).filter
              (fun p => decide (0 < p))).sum
            = ((joinedPoints db user_id start_date end_date).filter
              (fun p => decide (0 < p))).sum) := by
  constructor
  · intro acts S days
    rw [scheduledTotals_char, scheduledTotals_char]
    have hmap : ((days.filter (fun d => !S.contains d)).map (dayMax (acts ++ [a]))) =
        ((days.filter (fun d => !S.contains d)).map (dayMax acts)) :=
      List.map_congr_left (fun d _ => dayMax_append_nonpos a h acts d)
    rw [hmap]
  · intro db user_id start_date end_date l h1 h2 h3 hfind
    have hcons : joinedPoints { db with logs := l :: db.logs } user_id start_date end_date =
        a.points :: joinedPoints db user_id start_date end_date := by
      simp only [joinedPoints, List.filter_cons]
      rw [if_pos (by simp [h1, h2, h3])]
      simp only [List.filterMap_cons, hfind, Option.map_some']
    rw [hcons]
    refine ⟨rfl, ?_⟩
    simp only [List.filter_cons]
    rw [if_neg (by simp [not_lt.mpr h])]

/-- Witness for C4: a -5-point item appended to a one-item list leaves the
max-points total of a 2-day window unchanged, and its in-range completion
grows the joined log list by one with the positive sum unchanged. -/
theorem nonpositive_item_scoring_witness :
    (⟨2, 1, -5, true, none, none, none⟩ : Activity).points ≤ 0 ∧
      (scheduledTotals ([⟨1, 1, 10, true, none, none, none⟩] ++
          [⟨2, 1, -5, true, none, none, none⟩]) [] [0, 1]).1 =
        (scheduledTotals [⟨1, 1, 10, true, none, none, none⟩] [] [0, 1]).1 ∧
      (joinedPoints ⟨[⟨2, 1, -5, true, none, none, none⟩], [⟨2, 0, 1⟩], []⟩ 1 0 1).length =
        (joinedPoints ⟨[⟨2, 1, -5, true, none, none, none⟩], [], []⟩ 1 0 1).length + 1 :=
  ⟨by decide,
   (nonpositive_item_scoring ⟨2, 1, -5, true, none, none, none⟩ (by decide)).1
     [⟨1, 1, 10, true, none, none, none⟩] [] [0, 1],
   ((nonpositive_item_scoring ⟨2, 1, -5, true, none, none, none⟩ (by decide)).2
     ⟨[⟨2, 1, -5, true, none, none, none⟩], [], []⟩ 1 0 1 ⟨2, 0, 1⟩ rfl (by decide) (by decide)
     (by decide)).1⟩

lemma mem_dateRange (a b d : Int) : d ∈ dateRange a b ↔ a ≤ d ∧ d ≤ b := by
  simp only [dateRange]
  split_ifs with hab
  · rw [List.mem_map]
    constructor
    · rintro ⟨i, hi, hda⟩
      rw [List.mem_range] at hi
      omega
    · rintro ⟨h1, h2⟩
      refine ⟨(d - a).toNat, ?_, ?_⟩
      · rw [List.mem_range]
        omega
      · omega
  · simp only [List.not_mem_nil, false_iff]
    omega

lemma dateRange_seven (s : Int) :
    dateRange s (s + 6) = [s, s + 1, s + 2, s + 3, s + 4, s + 5, s + 6] := by
  simp only [dateRange, if_pos (by omega : s ≤ s + 6)]
  have h : (s + 6 - s).toNat = 6 := by omega
  rw [h]
  simp [List.range_succ]

lemma round1_hundred : round1 100 = 100 := by
  have h := round1_int 100
  norm_num at h
  exact h

lemma calculate_score_eq_happy (db : DB) (start_date end_date : Int) (period : String)
    (user_id : Nat) (today : Int)
    (h1 : (db.activities.filter (fun a => a.is_active && a.user_id == user_id)).isEmpty = false)
    (h2 : ¬ effectiveEnd end_date today < effectiveStart db user_id start_date) :
    calculate_score db start_date end_date period user_id today =
      ⟨period, start_date, end_date,
       ((joinedPoints db user_id start_date end_date).filter (fun p => decide (0 < p))).sum,
       (scheduledTotals (db.activities.filter (fun a => a.is_active && a.user_id == user_id))
         ((db.special_days.filter (fun s =>
             s.user_id == user_id && decide (start_date ≤ s.day) && decide (s.day ≤ end_date))).map
           (fun s => s.day))
         (dateRange (effectiveStart db user_id start_date) (effectiveEnd end_date today))).1,
       (joinedPoints db user_id start_date end_date).length,
       (scheduledTotals (db.activities.filter (fun a => a.is_active && a.user_id == user_id))
         ((db.special_days.filter (fun s =>
             s.user_id == user_id && decide (start_date ≤ s.day) && decide (s.day ≤ end_date))).map
           (fun s => s.day))
         (dateRange (effectiveStart db user_id start_date) (effectiveEnd end_date today))).2,
       round1 (if 0 < (scheduledTotals
           (db.activities.filter (fun a => a.is_active && a.user_id == user_id))
           ((db.special_days.filter (fun s =>
               s.user_id == user_id && decide (start_date ≤ s.day) && decide (s.day ≤ end_date))).map
             (fun s => s.day))
           (dateRange (effectiveStart db user_id start_date) (effectiveEnd end_date today))).1
         then (((joinedPoints db user_id start_date end_date).filter
             (fun p => decide (0 < p))).sum : ℚ) /
           ((scheduledTotals (db.activities.filter (fun a => a.is_active && a.user_id == user_id))
             ((db.special_days.filter (fun s =>
                 s.user_id == user_id && decide (start_date ≤ s.day) && decide (s.day ≤ end_date))).map
               (fun s => s.day))
             (dateRange (effectiveStart db user_id start_date) (effectiveEnd end_date today))).1 : ℚ)
           * 100
         else 0)⟩ := by
  simp only [calculate_score]
  rw [if_neg (by simp [h1]), if_neg h2]

/-- C8 counterexample: the claim quantifies over every single active item due
every day of the window, but a negative-point item (allowed by the data
model) yields max_possible_points 0 and hence percentage 0, not 100, despite
its 7 completions. -/
theorem perfect_week_100_cex :
    (calculate_score ⟨[⟨2, 1, -5, true, none, none, none⟩],
        (dateRange 100 106).map (fun d => ⟨2, d, 1⟩), []⟩ 100 106 "weekly" 1 106).percentage
      ≠ 100 ∧
    (calculate_score ⟨[⟨2, 1, -5, true, none, none, none⟩],
        (dateRange 100 106).map (fun d => ⟨2, d, 1⟩), []⟩ 100 106 "weekly" 1
      106).completed_count = 7 := by
  constructor
  · rw [calculate_score_percentage_eq _ _ _ _ _ _ (by decide) (by decide)]
    rw [show (calculate_score ⟨[⟨2, 1, -5, true, none, none, none⟩],
        (dateRange 100 106).map (fun d => ⟨2, d, 1⟩), []⟩ 100 106 "weekly" 1
        106).max_possible_points = 0 from by decide]
    norm_num
    rw [round1_zero]
    norm_num
  · decide

/-- C8 (amended): for every single active item with positive point value —
any schedule shape — that is due on every day of a 7-day window entirely
inside [first_event_date, today], with no special days and exactly 7
completion events (one per day of the window), calculate_score returns
percentage exactly 100. -/
theorem perfect_week_100 (act : Activity) (user_id : Nat) (s today : Int) (period : String)
    (hactive : act.is_active = true) (huser : act.user_id = user_id)
    (hp : 0 < act.points)
    (hdue : ∀ d : Int, s ≤ d → d ≤ s + 6 → activityDue act d = true)
    (ht : s + 6 ≤ today) :
    (calculate_score
        ⟨[act], (dateRange s (s + 6)).map (fun d => ⟨act.id, d, user_id⟩), []⟩
        s (s + 6) period user_id today).percentage = 100 := by
  have hact : (([act] : List Activity).filter
      (fun a => a.is_active && a.user_id == user_id)) = [act] := by
    simp [hactive, huser]
  have h1 : (([act] : List Activity).filter
      (fun a => a.is_active && a.user_id == user_id)).isEmpty = false := by
    rw [hact]
    rfl
  have hfl : firstLogDate
      ⟨[act], (dateRange s (s + 6)).map (fun d => ⟨act.id, d, user_id⟩), []⟩
      user_id = some s := by
    simp only [firstLogDate]
    have hf : ((dateRange s (s + 6)).map
          (fun d => (⟨act.id, d, user_id⟩ : ActivityLog))).filter
        (fun l => l.user_id == user_id) =
        (dateRange s (s + 6)).map (fun d => ⟨act.id, d, user_id⟩) := by
      apply List.filter_eq_self.mpr
      intro l hl
      obtain ⟨d, hd, rfl⟩ := List.mem_map.mp hl
      simp
    rw [hf, List.map_map]
    rw [show ((fun (l : ActivityLog) => l.completed_at) ∘
        (fun d => (⟨act.id, d, user_id⟩ : ActivityLog))) = fun (d : Int) => d from rfl]
    rw [show ((dateRange s (s + 6)).map (fun (d : Int) => d)) = dateRange s (s + 6) from
      List.map_id' _]
    rw [dateRange_seven]
    simp only [List.foldr_cons, List.foldr_nil]
    congr 1
    omega
  have heffs : effectiveStart
      ⟨[act], (dateRange s (s + 6)).map (fun d => ⟨act.id, d, user_id⟩), []⟩
      user_id s = s := by
    simp only [effectiveStart, hfl]
    exact max_self s
  have heffe : effectiveEnd (s + 6) today = s + 6 := by
    simp only [effectiveEnd]
    omega
  have h2 : ¬ effectiveEnd (s + 6) today < effectiveStart
      ⟨[act], (dateRange s (s + 6)).map (fun d => ⟨act.id, d, user_id⟩), []⟩
      user_id s := by
    rw [heffs, heffe]
    omega
  have hsched : scheduledTotals [act] [] (dateRange s (s + 6)) = (7 * act.points, 7) := by
    rw [scheduledTotals_char]
    rw [show ((dateRange s (s + 6)).filter (fun d => !(List.contains [] d))) =
      dateRange s (s + 6) from List.filter_eq_self.mpr (fun x _ => rfl)]
    have hdm : (dateRange s (s + 6)).map (dayMax [act]) =
        (dateRange s (s + 6)).map (fun _ => act.points) := by
      apply List.map_congr_left
      intro d hd
      have hb := (mem_dateRange s (s + 6) d).mp hd
      simp [dayMax, List.filter_cons, hdue d hb.1 hb.2, hp]
    have hdc : (dateRange s (s + 6)).map (dayCount [act]) =
        (dateRange s (s + 6)).map (fun _ => 1) := by
      apply List.map_congr_left
      intro d hd
      have hb := (mem_dateRange s (s + 6) d).mp hd
      simp [dayCount, List.filter_cons, hdue d hb.1 hb.2]
    rw [hdm, hdc, dateRange_seven]
    simp only [List.map_cons, List.map_nil, List.sum_cons, List.sum_nil, Prod.mk.injEq]
    exact ⟨by ring, by norm_num⟩
  have hjoined : joinedPoints
      ⟨[act], (dateRange s (s + 6)).map (fun d => ⟨act.id, d, user_id⟩), []⟩
      user_id s (s + 6) =
      (dateRange s (s + 6)).map (fun _ => act.points) := by
    simp only [joinedPoints]
    have hf : ((dateRange s (s + 6)).map
          (fun d => (⟨act.id, d, user_id⟩ : ActivityLog))).filter
        (fun l => l.user_id == user_id && decide (s ≤ l.completed_at) &&
          decide (l.completed_at ≤ s + 6)) =
        (dateRange s (s + 6)).map (fun d => ⟨act.id, d, user_id⟩) := by
      apply List.filter_eq_self.mpr
      intro l hl
      obtain ⟨d, hd, rfl⟩ := List.mem_map.mp hl
      have hdr := (mem_dateRange s (s + 6) d).mp hd
      simp only [Bool.and_eq_true, beq_self_eq_true, decide_eq_true_eq, true_and]
      omega
    rw [hf, List.filterMap_map]
    rw [show ((fun (l : ActivityLog) =>
        (List.find? (fun x => x.id == l.activity_id) [act]).map (fun x => x.points)) ∘
        (fun d => (⟨act.id, d, user_id⟩ : ActivityLog))) =
      (fun (_ : Int) => some act.points) from by
        funext d
        show (List.find? (fun x => x.id == act.id) [act]).map (fun x => x.points) =
          some act.points
        rw [List.find?_cons_of_pos _ (by simp)]
        rfl]
    rw [show (fun (_ : Int) => some act.points) = some ∘ (fun (_ : Int) => act.points)
      from rfl, List.filterMap_eq_map]
  have htp : (((dateRange s (s + 6)).map (fun (_ : Int) => act.points)).filter
      (fun q => decide (0 < q))).sum = 7 * act.points := by
    rw [show (((dateRange s (s + 6)).map (fun (_ : Int) => act.points)).filter
        (fun q => decide (0 < q))) =
        (dateRange s (s + 6)).map (fun (_ : Int) => act.points) from
      List.filter_eq_self.mpr (by
        intro x hx
        obtain ⟨d, _, rfl⟩ := List.mem_map.mp hx
        simpa using hp)]
    rw [dateRange_seven]
    simp only [List.map_cons, List.map_nil, List.sum_cons, List.sum_nil]
    ring
  have hmax : (calculate_score
      ⟨[act], (dateRange s (s + 6)).map (fun d => ⟨act.id, d, user_id⟩), []⟩
      s (s + 6) period user_id today).max_possible_points = 7 * act.points := by
    rw [calculate_score_eq_happy _ _ _ _ _ _ h1 h2]
    dsimp only
    rw [hact, heffs, heffe]
    rw [show (([] : List SpecialDay).filter (fun sd =>
        sd.user_id == user_id && decide (s ≤ sd.day) && decide (sd.day ≤ s + 6))).map
        (fun sd => sd.day) = [] from rfl]
    rw [hsched]
  have htotal : (calculate_score
      ⟨[act], (dateRange s (s + 6)).map (fun d => ⟨act.id, d, user_id⟩), []⟩
      s (s + 6) period user_id today).total_points = 7 * act.points := by
    rw [calculate_score_eq_happy _ _ _ _ _ _ h1 h2]
    dsimp only
    rw [hjoined, htp]
  rw [calculate_score_percentage_eq _ _ _ _ _ _ h1 h2, hmax, htotal]
  rw [if_pos (show (0 : ℤ) < 7 * act.points by omega)]
  have hne : ((7 * act.points : ℤ) : ℚ) ≠ 0 := Int.cast_ne_zero.mpr (by omega)
  rw [div_self hne, one_mul, round1_hundred]

/-- Witness for C8 (amended): a 10-point active everyday item (due on all of
days 100..106) with one completion per day and today = 106 scores exactly
100 percent. -/
theorem perfect_week_100_witness :
    ((⟨2, 1, 10, true, none, none, none⟩ : Activity).is_active = true) ∧
      ((⟨2, 1, 10, true, none, none, none⟩ : Activity).user_id = 1) ∧
      (0 : Int) < (⟨2, 1, 10, true, none, none, none⟩ : Activity).points ∧
      (∀ d : Int, (100 : Int) ≤ d → d ≤ 100 + 6 →
        activityDue ⟨2, 1, 10, true, none, none, none⟩ d = true) ∧
      (100 : Int) + 6 ≤ 106 ∧
      (calculate_score ⟨[⟨2, 1, 10, true, none, none, none⟩],
          (dateRange 100 106).map (fun d => ⟨2, d, 1⟩), []⟩
        100 106 "weekly" 1 106).percentage = 100 :=
  ⟨rfl, rfl, by decide, fun d h1 h2 => rfl, by decide,
   by
    have h := perfect_week_100 ⟨2, 1, 10, true, none, none, none⟩ 1 100 106 "weekly"
      rfl rfl (by decide) (fun d h1 h2 => rfl) (by decide)
    norm_num at h ⊢
    exact h⟩

/-! Infrastructure for the streak claims: membership chains, list maxima,
and the descending de-duplicating sort. -/

lemma length_filter_mono (l : List Int) (p q : Int → Bool)
    (h : ∀ x, p x = true → q x = true) : (l.filter p).length ≤ (l.filter q).length := by
  induction l with
  | nil => simp
  | cons a t ih =>
    by_cases hp : p a
    · rw [List.filter_cons_of_pos hp, List.filter_cons_of_pos (h a hp)]
      simpa using ih
    · rw [List.filter_cons_of_neg hp]
      by_cases hq : q a
      · rw [List.filter_cons_of_pos hq]
        exact le_trans ih (by simp)
      · rw [List.filter_cons_of_neg hq]
        exact ih

lemma length_filter_pred_lt (l : List Int) (a : Int) (h : a ∈ l) :
    (l.filter (fun b => decide (b ≤ a - 1))).length <
      (l.filter (fun b => decide (b ≤ a))).length := by
  induction l with
  | nil => simp at h
  | cons c t ih =>
    by_cases hca : c = a
    · subst hca
      rw [List.filter_cons_of_neg (by simp), List.filter_cons_of_pos (by simp)]
      have := length_filter_mono t (fun b => decide (b ≤ c - 1)) (fun b => decide (b ≤ c))
        (fun x hx => by simp at hx ⊢; omega)
      simp only [List.length_cons]
      omega
    · have hat : a ∈ t := by
        rcases List.mem_cons.mp h with h1 | h1
        · exact absurd h1.symm hca
        · exact h1
      have iht := ih hat
      by_cases hc1 : c ≤ a - 1
      · rw [List.filter_cons_of_pos (by simpa using hc1),
          List.filter_cons_of_pos (by simp; omega)]
        simpa using iht
      · rw [List.filter_cons_of_neg (by simpa using hc1)]
        by_cases hc2 : c ≤ a
        · rw [List.filter_cons_of_pos (by simpa using hc2)]
          simp only [List.length_cons]
          omega
        · rw [List.filter_cons_of_neg (by simpa using hc2)]
          exact iht

lemma chainDownF_succ (l : List Int) (a : Int) (n : Nat) :
    chainDownF l a (n + 1) = if a ∈ l then 1 + chainDownF l (a - 1) n else 0 := rfl

lemma chainDownF_stable (l : List Int) :
    ∀ (n : Nat) (a : Int), (l.filter (fun b => decide (b ≤ a))).length ≤ n →
      chainDownF l a (n + 1) = chainDownF l a n := by
  intro n
  induction n with
  | zero =>
    intro a hn
    have ha : a ∉ l := by
      intro hmem
      have := length_filter_pred_lt l a hmem
      omega
    simp [chainDownF, ha]
  | succ n ih =>
    intro a hn
    by_cases ha : a ∈ l
    · have hlt := length_filter_pred_lt l a ha
      have hrec : (l.filter (fun b => decide (b ≤ a - 1))).length ≤ n := by omega
      rw [show chainDownF l a (n + 1 + 1) = 1 + chainDownF l (a - 1) (n + 1) from by
        rw [chainDownF_succ, if_pos ha]]
      rw [show chainDownF l a (n + 1) = 1 + chainDownF l (a - 1) n from by
        rw [chainDownF_succ, if_pos ha]]
      rw [ih (a - 1) hrec]
    · rw [show chainDownF l a (n + 1 + 1) = 0 from by rw [chainDownF_succ, if_neg ha]]
      rw [show chainDownF l a (n + 1) = 0 from by rw [chainDownF_succ, if_neg ha]]

lemma chainDownF_stable_ge (l : List Int) :
    ∀ (m n : Nat) (a : Int), (l.filter (fun b => decide (b ≤ a))).length ≤ n → n ≤ m →
      chainDownF l a m = chainDownF l a n := by
  intro m
  induction m with
  | zero =>
    intro n a _ hnm
    have hn0 : n = 0 := by omega
    rw [hn0]
  | succ m ih =>
    intro n a hb hnm
    rcases Nat.eq_or_lt_of_le hnm with heq | hlt
    · rw [heq]
    · have h1 : chainDownF l a (m + 1) = chainDownF l a m :=
        chainDownF_stable l m a (le_trans hb (by omega))
      rw [h1]
      exact ih n a hb (by omega)

lemma chainDown_unfold (l : List Int) (a : Int) :
    chainDown l a = if a ∈ l then 1 + chainDown l (a - 1) else 0 := by
  simp only [chainDown]
  rw [chainDownF_succ]
  by_cases ha : a ∈ l
  · rw [if_pos ha, if_pos ha]
    have hs : chainDownF l (a - 1) (l.length + 1) = chainDownF l (a - 1) l.length :=
      chainDownF_stable_ge l (l.length + 1) l.length (a - 1)
        (List.length_filter_le _ _) (by omega)
    rw [hs]
  · rw [if_neg ha, if_neg ha]

lemma chainDownF_congr (l1 l2 : List Int) (h : ∀ x, x ∈ l1 ↔ x ∈ l2) :
    ∀ (n : Nat) (a : Int), chainDownF l1 a n = chainDownF l2 a n := by
  intro n
  induction n with
  | zero => intro a; rfl
  | succ n ih =>
    intro a
    by_cases ha : a ∈ l1
    · simp only [chainDownF, if_pos ha, if_pos ((h a).mp ha)]
      rw [ih]
    · simp only [chainDownF, if_neg ha, if_neg (fun hc => ha ((h a).mpr hc))]

lemma chainDown_congr (l1 l2 : List Int) (h : ∀ x, x ∈ l1 ↔ x ∈ l2) (a : Int) :
    chainDown l1 a = chainDown l2 a := by
  simp only [chainDown]
  have hN1 : chainDownF l1 a (l1.length + 1) =
      chainDownF l1 a (max (l1.length + 1) (l2.length + 1)) :=
    (chainDownF_stable_ge l1 (max (l1.length + 1) (l2.length + 1)) (l1.length + 1) a
      (by have := List.length_filter_le (fun b => decide (b ≤ a)) l1; omega)
      (by omega)).symm
  have hN2 : chainDownF l2 a (l2.length + 1) =
      chainDownF l2 a (max (l1.length + 1) (l2.length + 1)) :=
    (chainDownF_stable_ge l2 (max (l1.length + 1) (l2.length + 1)) (l2.length + 1) a
      (by have := List.length_filter_le (fun b => decide (b ≤ a)) l2; omega)
      (by omega)).symm
  rw [hN1, hN2]
  exact chainDownF_congr l1 l2 h _ a

lemma chainDown_notMem (l : List Int) (a : Int) (h : a ∉ l) : chainDown l a = 0 := by
  rw [chainDown_unfold, if_neg h]

lemma chainDown_cons_lt (x : Int) (s : List Int) (a : Int) (h : a < x) :
    chainDown (x :: s) a = chainDown s a := by
  have hF : ∀ (n : Nat) (b : Int), b < x → chainDownF (x :: s) b n = chainDownF s b n := by
    intro n
    induction n with
    | zero => intro b _; rfl
    | succ n ih =>
      intro b hb
      have hmem : b ∈ x :: s ↔ b ∈ s := by
        simp only [List.mem_cons]
        constructor
        · rintro (rfl | hs)
          · omega
          · exact hs
        · exact fun hs => Or.inr hs
      by_cases hbs : b ∈ s
      · simp only [chainDownF, if_pos (hmem.mpr hbs), if_pos hbs]
        rw [ih (b - 1) (by omega)]
      · simp only [chainDownF, if_neg (fun hc => hbs (hmem.mp hc)), if_neg hbs]
  simp only [chainDown]
  have h1 : chainDownF (x :: s) a ((x :: s).length + 1) = chainDownF (x :: s) a (s.length + 1) := by
    apply chainDownF_stable_ge
    · have hsub : ((x :: s).filter (fun b => decide (b ≤ a))).length ≤
          (s.filter (fun b => decide (b ≤ a))).length := by
        rw [List.filter_cons_of_neg (by simp; omega)]
      have := List.length_filter_le (fun b => decide (b ≤ a)) s
      omega
    · simp
  rw [h1, hF (s.length + 1) a h]

lemma chainDown_run (L : List Int) (x : Int) (hstop : x - 1 ∉ L) :
    ∀ (j : Nat), (∀ i : Nat, i ≤ j → x + (i : Int) ∈ L) →
      chainDown L (x + (j : Int)) = j + 1 := by
  intro j
  induction j with
  | zero =>
    intro hmem
    have hx : x ∈ L := by simpa using hmem 0 (by omega)
    rw [show x + ((0 : Nat) : Int) = x by omega, chainDown_unfold, if_pos hx]
    rw [chainDown_notMem L (x - 1) hstop]
  | succ j ih =>
    intro hmem
    have hx : x + ((j + 1 : Nat) : Int) ∈ L := hmem (j + 1) (by omega)
    rw [chainDown_unfold, if_pos hx]
    rw [show x + ((j + 1 : Nat) : Int) - 1 = x + (j : Int) by push_cast; ring]
    rw [ih (fun i hi => hmem i (by omega))]
    omega

lemma maxOver_le_iff (l : List Int) (f : Int → Nat) (n : Nat) :
    maxOver l f ≤ n ↔ ∀ a ∈ l, f a ≤ n := by
  induction l with
  | nil => simp [maxOver]
  | cons a t ih =>
    simp only [maxOver, List.foldr_cons] at ih ⊢
    constructor
    · intro h b hb
      rcases List.mem_cons.mp hb with rfl | hbt
      · omega
      · exact ih.mp (by omega) b hbt
    · intro h
      have h1 := h a (List.mem_cons_self a t)
      have h2 := ih.mpr (fun b hb => h b (List.mem_cons_of_mem a hb))
      omega

lemma le_maxOver_of_mem (l : List Int) (f : Int → Nat) (a : Int) (h : a ∈ l) :
    f a ≤ maxOver l f :=
  (maxOver_le_iff l f (maxOver l f)).mp (le_refl _) a h

lemma maxOver_congr_mem (l1 l2 : List Int) (f : Int → Nat) (h : ∀ x, x ∈ l1 ↔ x ∈ l2) :
    maxOver l1 f = maxOver l2 f := by
  apply Nat.le_antisymm
  · exact (maxOver_le_iff l1 f _).mpr
      (fun a ha => le_maxOver_of_mem l2 f a ((h a).mp ha))
  · exact (maxOver_le_iff l2 f _).mpr
      (fun a ha => le_maxOver_of_mem l1 f a ((h a).mpr ha))

lemma maxOver_congr_fun (l : List Int) (f g : Int → Nat) (h : ∀ a ∈ l, f a = g a) :
    maxOver l f = maxOver l g := by
  induction l with
  | nil => rfl
  | cons a t ih =>
    simp only [maxOver, List.foldr_cons]
    rw [h a (List.mem_cons_self a t)]
    have := ih (fun b hb => h b (List.mem_cons_of_mem a hb))
    simp only [maxOver] at this
    rw [this]

lemma mem_insertDesc (a x : Int) (l : List Int) :
    x ∈ insertDesc a l ↔ x = a ∨ x ∈ l := by
  induction l with
  | nil => simp [insertDesc]
  | cons b t ih =>
    simp only [insertDesc]
    split_ifs with h1 h2
    · simp [List.mem_cons]
    · subst h2
      simp only [List.mem_cons]
      constructor
      · intro h
        exact Or.inr h
      · rintro (rfl | h)
        · exact Or.inl rfl
        · exact h
    · simp only [List.mem_cons, ih]
      tauto

lemma pairwise_insertDesc (a : Int) (l : List Int) (h : l.Pairwise (· > ·)) :
    (insertDesc a l).Pairwise (· > ·) := by
  induction l with
  | nil => simp [insertDesc]
  | cons b t ih =>
    rw [List.pairwise_cons] at h
    obtain ⟨hb, ht⟩ := h
    simp only [insertDesc]
    split_ifs with h1 h2
    · rw [List.pairwise_cons]
      refine ⟨?_, by rw [List.pairwise_cons]; exact ⟨hb, ht⟩⟩
      intro x hx
      rcases List.mem_cons.mp hx with rfl | hxt
      · exact h1
      · exact lt_trans (hb x hxt) h1
    · rw [List.pairwise_cons]
      exact ⟨hb, ht⟩
    · rw [List.pairwise_cons]
      refine ⟨?_, ih ht⟩
      intro x hx
      rcases (mem_insertDesc a x t).mp hx with rfl | hxt
      · omega
      · exact hb x hxt

lemma mem_sortDescDedup (l : List Int) (x : Int) : x ∈ sortDescDedup l ↔ x ∈ l := by
  induction l with
  | nil => simp [sortDescDedup]
  | cons a t ih =>
    simp only [sortDescDedup, List.foldr_cons] at ih ⊢
    rw [mem_insertDesc, ih, List.mem_cons]

lemma sortDescDedup_pairwise (l : List Int) : (sortDescDedup l).Pairwise (· > ·) := by
  induction l with
  | nil => exact List.Pairwise.nil
  | cons a t ih =>
    simp only [sortDescDedup, List.foldr_cons] at ih ⊢
    exact pairwise_insertDesc a _ ih

lemma pairwise_gt_head_max (x : Int) (s : List Int) (h : (x :: s).Pairwise (· > ·)) :
    ∀ a ∈ x :: s, a ≤ x := by
  rw [List.pairwise_cons] at h
  intro a ha
  rcases List.mem_cons.mp ha with rfl | hat
  · exact le_refl a
  · exact le_of_lt (h.1 a hat)

lemma pairwise_gt_ext (l1 : List Int) :
    ∀ (l2 : List Int), l1.Pairwise (· > ·) → l2.Pairwise (· > ·) →
      (∀ x, x ∈ l1 ↔ x ∈ l2) → l1 = l2 := by
  induction l1 with
  | nil =>
    intro l2 _ _ hm
    cases l2 with
    | nil => rfl
    | cons b t => exact absurd ((hm b).mpr (List.mem_cons_self b t)) (List.not_mem_nil b)
  | cons a t1 ih =>
    intro l2 h1 h2 hm
    cases l2 with
    | nil => exact absurd ((hm a).mp (List.mem_cons_self a t1)) (List.not_mem_nil a)
    | cons b t2 =>
      have hab : a = b := by
        have ha2 : a ∈ b :: t2 := (hm a).mp (List.mem_cons_self a t1)
        have hb1 : b ∈ a :: t1 := (hm b).mpr (List.mem_cons_self b t2)
        have h1' := pairwise_gt_head_max a t1 h1 b hb1
        have h2' := pairwise_gt_head_max b t2 h2 a ha2
        omega
      subst hab
      have htails : ∀ x, x ∈ t1 ↔ x ∈ t2 := by
        intro x
        rw [List.pairwise_cons] at h1 h2
        constructor
        · intro hx
          have hxa : x < a := h1.1 x hx
          rcases List.mem_cons.mp ((hm x).mp (List.mem_cons_of_mem a hx)) with rfl | h
          · omega
          · exact h
        · intro hx
          have hxa : x < a := h2.1 x hx
          rcases List.mem_cons.mp ((hm x).mpr (List.mem_cons_of_mem a hx)) with rfl | h
          · omega
          · exact h
      rw [List.pairwise_cons] at h1 h2
      rw [ih t2 h1.2 h2.2 htails]

lemma countConsecutive_eq_chainDown (l : List Int) :
    ∀ (e : Int), l.Pairwise (· > ·) → (∀ a ∈ l, a ≤ e) →
      countConsecutive l e = chainDown l e := by
  induction l with
  | nil =>
    intro e _ _
    rw [chainDown_notMem _ _ (List.not_mem_nil e)]
    rfl
  | cons x s ih =>
    intro e hp hle
    have hp' := hp
    rw [List.pairwise_cons] at hp'
    by_cases hex : e = x
    · subst hex
      simp only [countConsecutive, if_pos rfl]
      rw [chainDown_unfold, if_pos (List.mem_cons_self e s)]
      rw [chainDown_cons_lt e s (e - 1) (by omega)]
      rw [ih (e - 1) hp'.2 (fun a ha => by have := hp'.1 a ha; omega)]
      simp
    · have hxe : x < e := by
        have := hle x (List.mem_cons_self x s)
        omega
      have hnm : e ∉ x :: s := by
        intro hc
        have := pairwise_gt_head_max x s hp e hc
        omega
      rw [chainDown_notMem _ _ hnm]
      simp only [countConsecutive]
      rw [if_neg (by omega)]

lemma chainDown_block (L : List Int) (x : Int) (cur : Nat)
    (h2 : ∀ j : Nat, j < cur → x + (j : Int) ∈ L) (hxm1 : x - 1 ∉ L) :
    ∀ a : Int, x ≤ a → a ≤ x + (cur : Int) - 1 → chainDown L a = (a - x).toNat + 1 := by
  intro a ha1 ha2
  have hj : a = x + ((a - x).toNat : Int) := by omega
  rw [hj, chainDown_run L x hxm1 (a - x).toNat (fun i hi => h2 i (by omega))]
  omega

lemma maxOver_chain_merge (L : List Int) (x b : Int) (cur : Nat)
    (h4 : 1 ≤ cur)
    (h2 : ∀ j : Nat, j < cur → x + (j : Int) ∈ L)
    (hxm1 : x - 1 ∉ L)
    (hb : b < x)
    (hbd : ∀ a ∈ L, a < x → a ≤ b) :
    maxOver (L.filter (fun a => decide (b < a))) (chainDown L) =
      max cur (maxOver (L.filter (fun a => decide (x + (cur : Int) - 1 < a)))
        (chainDown L)) := by
  have hblock := chainDown_block L x cur h2 hxm1
  have htop_mem : x + (cur : Int) - 1 ∈ L := by
    rw [show x + (cur : Int) - 1 = x + ((cur - 1 : Nat) : Int) by omega]
    exact h2 (cur - 1) (by omega)
  have htop_chain : chainDown L (x + (cur : Int) - 1) = cur := by
    rw [hblock _ (by omega) (by omega)]
    omega
  apply Nat.le_antisymm
  · rw [maxOver_le_iff]
    intro a ha
    obtain ⟨haL, hab⟩ := List.mem_filter.mp ha
    have hba : b < a := of_decide_eq_true hab
    by_cases hax : a < x
    · exact absurd (hbd a haL hax) (by omega)
    · by_cases hatop : a ≤ x + (cur : Int) - 1
      · rw [hblock a (by omega) hatop]
        exact le_trans (by omega) (Nat.le_max_left _ _)
      · have hmem2 : a ∈ L.filter (fun a => decide (x + (cur : Int) - 1 < a)) :=
          List.mem_filter.mpr ⟨haL, by simp; omega⟩
        exact le_trans (le_maxOver_of_mem _ _ _ hmem2) (Nat.le_max_right _ _)
  · rw [Nat.max_le]
    constructor
    · have hmem : (x + (cur : Int) - 1) ∈ L.filter (fun a => decide (b < a)) :=
        List.mem_filter.mpr ⟨htop_mem, by simp; omega⟩
      calc cur = chainDown L (x + (cur : Int) - 1) := htop_chain.symm
        _ ≤ _ := le_maxOver_of_mem _ _ _ hmem
    · rw [maxOver_le_iff]
      intro a ha
      obtain ⟨haL, hab⟩ := List.mem_filter.mp ha
      have hab' : x + (cur : Int) - 1 < a := of_decide_eq_true hab
      have hmem2 : a ∈ L.filter (fun a => decide (b < a)) :=
        List.mem_filter.mpr ⟨haL, by simp; omega⟩
      exact le_maxOver_of_mem _ _ _ hmem2

lemma calcLongestAux_cons2 (x y : Int) (rest : List Int) (cur best : Nat) :
    calcLongestAux (x :: y :: rest) cur best =
      if x - y = 1 then calcLongestAux (y :: rest) (cur + 1) (max best (cur + 1))
      else calcLongestAux (y :: rest) 1 best := rfl

lemma mem_suffix_lt (L P : List Int) (x : Int) (suf : List Int)
    (hL : L.Pairwise (· > ·)) (hLeq : L = P ++ x :: suf) :
    ∀ a ∈ L, a < x → a ∈ suf := by
  intro a ha hax
  rw [hLeq] at ha
  rw [hLeq, List.pairwise_append] at hL
  rcases List.mem_append.mp ha with haP | hax2
  · have := hL.2.2 a haP x (List.mem_cons_self x suf)
    omega
  · rcases List.mem_cons.mp hax2 with rfl | h
    · omega
    · exact h

lemma calcLongestAux_inv (L : List Int) (hL : L.Pairwise (· > ·)) :
    ∀ (s P : List Int) (x : Int) (cur best : Nat),
      L = P ++ x :: s →
      (∀ j : Nat, j < cur → x + (j : Int) ∈ L) →
      (x + (cur : Int)) ∉ L →
      1 ≤ cur →
      best = max cur (maxOver (L.filter (fun a => decide (x + (cur : Int) - 1 < a)))
        (chainDown L)) →
      calcLongestAux (x :: s) cur best = maxOver L (chainDown L) := by
  intro s
  induction s with
  | nil =>
    intro P x cur best hLeq h2 h3 h4 h5
    have hxL : x ∈ L := by
      rw [hLeq]
      exact List.mem_append_right P (List.mem_cons_self x [])
    have hgex : ∀ a ∈ L, x ≤ a := by
      intro a ha
      by_contra hlt
      have := mem_suffix_lt L P x [] hL hLeq a ha (by omega)
      simp at this
    have hxm1 : x - 1 ∉ L := fun hc => by have := hgex _ hc; omega
    have hfull : L.filter (fun a => decide (x - 1 < a)) = L :=
      List.filter_eq_self.mpr (fun a ha => by
        have := hgex a ha
        simp
        omega)
    have hmerge := maxOver_chain_merge L x (x - 1) cur h4 h2 hxm1 (by omega)
      (fun a ha hax => by have := hgex a ha; omega)
    rw [hfull] at hmerge
    show best = maxOver L (chainDown L)
    rw [h5, hmerge]
  | cons y s' ih =>
    intro P x cur best hLeq h2 h3 h4 h5
    have hsuff : (x :: y :: s').Pairwise (· > ·) := by
      rw [hLeq, List.pairwise_append] at hL
      exact hL.2.1
    have hyx : y < x := by
      rw [List.pairwise_cons] at hsuff
      exact hsuff.1 y (List.mem_cons_self y s')
    have hs'y : ∀ a ∈ s', a < y := by
      rw [List.pairwise_cons] at hsuff
      have h := hsuff.2
      rw [List.pairwise_cons] at h
      exact h.1
    have hyL : y ∈ L := by
      rw [hLeq]
      exact List.mem_append_right P (List.mem_cons_of_mem x (List.mem_cons_self y s'))
    have hLeq' : L = (P ++ [x]) ++ y :: s' := by
      rw [hLeq, List.append_assoc]
      rfl
    rw [calcLongestAux_cons2]
    by_cases hxy : x - y = 1
    · rw [if_pos hxy]
      apply ih (P ++ [x]) y (cur + 1) (max best (cur + 1)) hLeq'
      · intro j hj
        cases j with
        | zero => simpa using hyL
        | succ j0 =>
          have hm := h2 j0 (by omega)
          rw [show y + ((j0 + 1 : Nat) : Int) = x + (j0 : Int) by push_cast; omega]
          exact hm
      · rw [show y + ((cur + 1 : Nat) : Int) = x + (cur : Int) by push_cast; omega]
        exact h3
      · omega
      · have hpred : (fun (a : Int) => decide (y + ((cur + 1 : Nat) : Int) - 1 < a)) =
            (fun (a : Int) => decide (x + (cur : Int) - 1 < a)) := by
          funext a
          rw [decide_eq_decide]
          push_cast
          omega
        rw [hpred, h5]
        omega
    · rw [if_neg hxy]
      have hym : ∀ a ∈ L, a < x → a ∈ y :: s' := mem_suffix_lt L P x (y :: s') hL hLeq
      have hxm1 : x - 1 ∉ L := by
        intro hc
        rcases List.mem_cons.mp (hym _ hc (by omega)) with heq | h
        · omega
        · have := hs'y _ h
          omega
      apply ih (P ++ [x]) y 1 best hLeq'
      · intro j hj
        have hj0 : j = 0 := by omega
        rw [hj0]
        simpa using hyL
      · intro hc
        rcases List.mem_cons.mp (hym _ hc (by push_cast; omega)) with heq | h
        · omega
        · have := hs'y _ h
          omega
      · omega
      · have hmerge := maxOver_chain_merge L x y cur h4 h2 hxm1 hyx
          (fun a ha hax => by
            rcases List.mem_cons.mp (hym a ha hax) with rfl | h
            · omega
            · have := hs'y _ h
              omega)
        have hpred : (fun (a : Int) => decide (y + ((1 : Nat) : Int) - 1 < a)) =
            (fun (a : Int) => decide (y < a)) := by
          funext a
          rw [decide_eq_decide]
          push_cast
          omega
        rw [hpred, hmerge, h5]
        omega

lemma calcLongest_eq (l : List Int) (hp : l.Pairwise (· > ·)) (hne : l ≠ []) :
    calcLongest l = maxOver l (chainDown l) := by
  cases l with
  | nil => exact absurd rfl hne
  | cons x s =>
    have hie : (x :: s).isEmpty = false := rfl
    simp only [calcLongest, hie, Bool.false_eq_true, if_false]
    apply calcLongestAux_inv (x :: s) hp s [] x 1 1 rfl
    · intro j hj
      have hj0 : j = 0 := by omega
      rw [hj0]
      simp
    · intro hc
      have := pairwise_gt_head_max x s hp (x + 1) hc
      omega
    · omega
    · have hfilter : (x :: s).filter (fun a => decide (x + ((1 : Nat) : Int) - 1 < a)) = [] := by
        rw [List.filter_eq_nil_iff]
        intro a ha
        have := pairwise_gt_head_max x s hp a ha
        simp
        omega
      rw [hfilter]
      rfl

/-- C5 counterexample: with a single completion on the future date 101 and
today = 100, the most recent date is not older than yesterday and the
backward consecutive count is 1, yet calculate_streaks returns current
streak 0 (the code demands the most recent date be exactly today or
yesterday). -/
theorem current_streak_future_cex :
    (calculate_streaks [((101 : Int), 1)] 1 100).current_streak = 0 ∧
      ¬ (101 : Int) < 100 - 1 ∧
      chainDown (datesOf [((101 : Int), 1)] 1) 101 = 1 := by
  refine ⟨by decide, by decide, by decide⟩

/-- C5 (amended): the two concrete streak examples of the spec hold
(completions 2024-01-01..05 (epoch days 19723..19727) give current 5 /
best 5 at today = 2024-01-05 and current 0 / best 5 at today = 2024-01-07);
and in general the current streak is 0 when the date list is empty or the
most recent date is not exactly today or yesterday, and otherwise equals the
number of consecutive calendar days counted backward from the most recent
date until the first gap. -/
theorem current_streak_spec :
    (calculate_streaks [(19723, 7), (19724, 7), (19725, 7), (19726, 7), (19727, 7)] 7 19727 =
      ⟨5, 5, some 19727⟩) ∧
    (calculate_streaks [(19723, 7), (19724, 7), (19725, 7), (19726, 7), (19727, 7)] 7 19729 =
      ⟨0, 5, some 19727⟩) ∧
    (∀ (logs : List (Int × Nat)) (activity_id : Nat) (today : Int),
      (datesOf logs activity_id = [] →
        (calculate_streaks logs activity_id today).current_streak = 0) ∧
      (∀ m ∈ datesOf logs activity_id, (∀ z ∈ datesOf logs activity_id, z ≤ m) →
        (calculate_streaks logs activity_id today).current_streak =
          if m = today ∨ m = today - 1 then chainDown (datesOf logs activity_id) m
          else 0)) := by
  refine ⟨by decide, by decide, fun logs activity_id today => ⟨?_, ?_⟩⟩
  · intro hd
    by_cases hle : logs.isEmpty
    · simp [calculate_streaks, hle]
    · simp only [calculate_streaks, hle, Bool.false_eq_true, if_false]
      rw [hd]
      rfl
  · intro m hm hmax
    have hlogs : logs ≠ [] := by
      intro hc
      rw [hc] at hm
      simp [datesOf] at hm
    have hie : logs.isEmpty = false := by
      cases logs with
      | nil => exact absurd rfl hlogs
      | cons a t => rfl
    have hpD := sortDescDedup_pairwise (datesOf logs activity_id)
    simp only [calculate_streaks, hie, Bool.false_eq_true, if_false]
    cases hD : sortDescDedup (datesOf logs activity_id) with
    | nil =>
      have : m ∈ sortDescDedup (datesOf logs activity_id) :=
        (mem_sortDescDedup _ m).mpr hm
      rw [hD] at this
      simp at this
    | cons d0 rest =>
      rw [hD] at hpD
      dsimp only
      have hd0m : d0 = m := by
        have h1 : d0 ∈ datesOf logs activity_id := by
          rw [← mem_sortDescDedup, hD]
          exact List.mem_cons_self d0 rest
        have h2 : m ∈ d0 :: rest := by
          rw [← hD, mem_sortDescDedup]
          exact hm
        have h3 := hmax d0 h1
        have h4 := pairwise_gt_head_max d0 rest hpD m h2
        omega
      subst hd0m
      by_cases hb : d0 = today ∨ d0 = today - 1
      · rw [if_pos hb, if_pos hb]
        have hexp : (if d0 = today then today else today - 1) = d0 := by
          by_cases hdt : d0 = today
          · rw [if_pos hdt, hdt]
          · rw [if_neg hdt]
            rcases hb with h | h
            · exact absurd h hdt
            · omega
        show countConsecutive (d0 :: rest) (if d0 = today then today else today - 1) = _
        rw [hexp]
        rw [countConsecutive_eq_chainDown (d0 :: rest) d0 hpD
          (pairwise_gt_head_max d0 rest hpD)]
        rw [← hD]
        exact chainDown_congr _ _ (mem_sortDescDedup (datesOf logs activity_id)) d0
      · rw [if_neg hb, if_neg hb]

/-- Witness for C5 (amended): the general clause applied to the concrete
five-day example at its maximal date 19727. -/
theorem current_streak_spec_witness :
    ((19727 : Int) ∈ datesOf [(19723, 7), (19724, 7), (19725, 7), (19726, 7), (19727, 7)] 7) ∧
      (∀ z ∈ datesOf [(19723, 7), (19724, 7), (19725, 7), (19726, 7), (19727, 7)] 7,
        z ≤ (19727 : Int)) ∧
      ((calculate_streaks [(19723, 7), (19724, 7), (19725, 7), (19726, 7), (19727, 7)] 7
          19727).current_streak =
        if (19727 : Int) = 19727 ∨ (19727 : Int) = 19727 - 1 then
          chainDown (datesOf [(19723, 7), (19724, 7), (19725, 7), (19726, 7), (19727, 7)] 7)
            19727
        else 0) :=
  ⟨by decide, by decide,
   (current_streak_spec.2.2 [(19723, 7), (19724, 7), (19725, 7), (19726, 7), (19727, 7)] 7
      19727).2 19727 (by decide) (by decide)⟩

/-- C6: for every log list whose extracted (non-empty) date list is given to
the streak calculator, the reported longest streak equals the maximum of the
current streak and the length of the longest run of consecutive calendar
days found anywhere in the date list (the maximal backward membership chain
over all dates). -/
theorem longest_streak_spec (logs : List (Int × Nat)) (activity_id : Nat) (today : Int)
    (h : datesOf logs activity_id ≠ []) :
    (calculate_streaks logs activity_id today).longest_streak =
      max (calculate_streaks logs activity_id today).current_streak
        (maxOver (datesOf logs activity_id) (chainDown (datesOf logs activity_id))) := by
  have hlogs : logs ≠ [] := by
    intro hc
    rw [hc] at h
    exact h rfl
  have hie : logs.isEmpty = false := by
    cases logs with
    | nil => exact absurd rfl hlogs
    | cons a t => rfl
  have hpD := sortDescDedup_pairwise (datesOf logs activity_id)
  simp only [calculate_streaks, hie, Bool.false_eq_true, if_false]
  cases hD : sortDescDedup (datesOf logs activity_id) with
  | nil =>
    obtain ⟨a, ha⟩ := List.exists_mem_of_ne_nil _ h
    have : a ∈ sortDescDedup (datesOf logs activity_id) :=
      (mem_sortDescDedup _ a).mpr ha
    rw [hD] at this
    simp at this
  | cons d0 rest =>
    rw [hD] at hpD
    dsimp only
    have htrans : calcLongest (d0 :: rest) =
        maxOver (datesOf logs activity_id) (chainDown (datesOf logs activity_id)) := by
      rw [calcLongest_eq (d0 :: rest) hpD (List.cons_ne_nil d0 rest)]
      have hmem : ∀ z, z ∈ d0 :: rest ↔ z ∈ datesOf logs activity_id := by
        intro z
        rw [← hD]
        exact mem_sortDescDedup _ z
      rw [maxOver_congr_fun (d0 :: rest) (chainDown (d0 :: rest))
        (chainDown (datesOf logs activity_id))
        (fun a _ => chainDown_congr _ _ hmem a)]
      exact maxOver_congr_mem _ _ _ hmem
    by_cases hb : d0 = today ∨ d0 = today - 1
    · rw [if_pos hb]
      show max _ (calcLongest (d0 :: rest)) = _
      rw [htrans]
    · rw [if_neg hb]
      show calcLongest (d0 :: rest) = max 0 _
      rw [htrans, Nat.zero_max]

/-- Witness for C6: the theorem applied to three completions on days
10, 9, 5 with today = 10. -/
theorem longest_streak_spec_witness :
    (datesOf [((10 : Int), 1), (9, 1), (5, 1)] 1 ≠ []) ∧
      ((calculate_streaks [((10 : Int), 1), (9, 1), (5, 1)] 1 10).longest_streak =
        max (calculate_streaks [((10 : Int), 1), (9, 1), (5, 1)] 1 10).current_streak
          (maxOver (datesOf [((10 : Int), 1), (9, 1), (5, 1)] 1)
            (chainDown (datesOf [((10 : Int), 1), (9, 1), (5, 1)] 1)))) :=
  ⟨by decide, longest_streak_spec [((10 : Int), 1), (9, 1), (5, 1)] 1 10 (by decide)⟩

/-- C9 counterexample: the summary-service current-streak computation does
NOT de-duplicate — on dates [100, 100, 99] with today = 100 it returns 1,
while on the same list with duplicates removed it returns 2. -/
theorem streak_dedup_cex :
    calculate_current_streak [100, 100, 99] 100 = 1 ∧
      calculate_current_streak (([100, 100, 99] : List Int).dedup) 100 = 2 := by
  refine ⟨by decide, by decide⟩

/-- C9 (amended): the analytics streak calculator (calculate_streaks) does
de-duplicate dates first, so its result on a log list with repeated entries
equals its result on the de-duplicated list; the summary-service
calculate_current_streak does not de-duplicate and violates this. -/
theorem streaks_dedup_invariant :
    ∀ (logs : List (Int × Nat)) (activity_id : Nat) (today : Int),
      calculate_streaks logs activity_id today =
        calculate_streaks logs.dedup activity_id today := by
  intro logs activity_id today
  have hmem : ∀ z, z ∈ datesOf logs.dedup activity_id ↔ z ∈ datesOf logs activity_id := by
    intro z
    simp [datesOf, List.mem_map, List.mem_filter, List.mem_dedup]
  have hsort : sortDescDedup (datesOf logs.dedup activity_id) =
      sortDescDedup (datesOf logs activity_id) :=
    pairwise_gt_ext _ _ (sortDescDedup_pairwise _) (sortDescDedup_pairwise _)
      (fun x => by rw [mem_sortDescDedup, mem_sortDescDedup]; exact hmem x)
  have hie : logs.dedup.isEmpty = logs.isEmpty := by
    cases logs with
    | nil => rfl
    | cons a t =>
      have hne : (a :: t).dedup ≠ [] := by
        rw [ne_eq, List.dedup_eq_nil]
        exact List.cons_ne_nil a t
      cases hdd : (a :: t).dedup with
      | nil => exact absurd hdd hne
      | cons b t2 => rfl
  simp only [calculate_streaks, hie, hsort]

end ActivityTracker
